import Mathlib

/-!
# Shell: job control and pipeline execution (shell.c)

A shallow embedding of the parts of `shell.c` that build and run a pipeline:

* the process list (`add_node`, `remove_node`) with its counter `num_bg_processes`;
* the signal dispositions installed by `set_handler` and the handler `sigchild_handler`;
* `execute_process` (argument vector and the sequence of `execv` calls);
* the stage loop of `main` (lines 313-431) and one iteration of the read loop of `main`.

Conventions of the embedding.

* C strings are `String`, a `char *` that may be `NULL` is `Option String`.
* A C function returns `none` on the inputs where its behaviour is undefined because of
  a `NULL` passed to a string function, a signed overflow of a counter, or a negative
  length converted to `size_t`.
* System calls `fork`, `pipe`, `dup2`, `close`, `malloc` and `sigaction` (on the signal
  numbers the code passes) are taken to succeed.
* What the code leaves to its surroundings is a parameter `env : Env` of the stage loop:
  which paths `open` can open (`open` always fails on `NULL`); for every forked child,
  whether its `execute_process` returns because every `execv` fails, or its program
  runs and exits, or its program runs and never exits; and whether the store of
  `pipe(pipefds[pipe_index])` past the end of `pipefds`, which happens when
  `pipe_index == num_pipes`, leaves the variables of the loop as they are.
* The stage loop is followed in the process that runs it, with its own events in `log`.
  After each `fork` that process waits for the child (`waitpid`, line 417): when the
  child never terminates the process is `blocked` and does nothing more.  A child whose
  `execute_process` returns goes on with its own copy of the loop (line 402 has no
  `exit`) and forks children of its own; the calls of `execute_process` of all
  descendants are kept in `calls`.  After a store outside `pipefds` that is not
  harmless the process is `undefined` and nothing more is recorded for it.
* Process groups, terminal control and the closing of pipe ends are left out.  In
  `main_iteration` the `waitpid` of line 285 is taken to return.
-/

set_option autoImplicit false

namespace Shell

/-! ## Process list (lines 19, 33-40, 220-250) -/

/-- Largest value of a C `int`. -/
def INT_MAX : Int := 2147483647

/-- The fields of `process_node_t` that the code reads back: `pid` and `bg`. -/
structure process_node where
  pid : Int
  bg : Int
  deriving DecidableEq, Repr

/-- Modelled from the spec: the list type of `list.h` is not part of the sources; the spec
describes the process table as an owned collection of entries.  `process_list` is the
sequence of its nodes from `list_begin` to `list_end`: `list_push_back` appends at the
end and `list_remove` takes one node out, keeping the order of the others.  The second
field is the global `num_bg_processes`. -/
structure ProcTable where
  process_list : List process_node
  num_bg_processes : Int
  deriving DecidableEq, Repr

/-- State after `list_init(&process_list)` with `num_bg_processes = 0`. -/
def ProcTable.init : ProcTable := ⟨[], 0⟩

/-- `add_node(pid, bg)`, lines 236-250.  The increment of the `int` counter is undefined
when the counter is `INT_MAX`; the model returns `none` there. -/
def add_node (t : ProcTable) (pid bg : Int) : Option ProcTable :=
  let new_node : process_node := ⟨pid, bg⟩
  if bg ≠ 0 then
    if t.num_bg_processes = INT_MAX then none
    else some ⟨t.process_list ++ [new_node], t.num_bg_processes + 1⟩
  else some ⟨t.process_list ++ [new_node], t.num_bg_processes⟩

/-- What a call of `remove_node` leaves behind: the globals, and the lines written to
standard error.  The C function returns `void`, so the globals are all its caller gets. -/
structure RemoveResult where
  table : ProcTable
  stderr : List String
  deriving DecidableEq, Repr

/-- The loop of `remove_node` over the list: `seen` are the nodes already passed.
Returns the list without the first node whose pid matches, and that node. -/
def remove_scan (desired_pid : Int) :
    List process_node → List process_node → Option (List process_node × process_node)
  | _, [] => none
  | seen, node :: rest =>
    if node.pid = desired_pid then some (seen ++ rest, node)
    else remove_scan desired_pid (seen ++ [node]) rest

/-- `remove_node(desired_pid)`, lines 220-235. -/
def remove_node (t : ProcTable) (desired_pid : Int) : RemoveResult :=
  match remove_scan desired_pid [] t.process_list with
  | some (l, node) =>
    if node.bg ≠ 0 then ⟨⟨l, t.num_bg_processes - 1⟩, []⟩
    else ⟨⟨l, t.num_bg_processes⟩, []⟩
  | none => ⟨t, ["node not in process list - cannot remove"]⟩

/-- A call on the process list. -/
inductive TableOp where
  | add (pid bg : Int)
  | remove (pid : Int)
  deriving DecidableEq, Repr

/-- Run one call. -/
def TableOp.apply (t : ProcTable) : TableOp → Option ProcTable
  | .add pid bg => add_node t pid bg
  | .remove pid => some (remove_node t pid).table

/-- Run a finite sequence of calls, left to right. -/
def run_ops : ProcTable → List TableOp → Option ProcTable
  | t, [] => some t
  | t, op :: ops =>
    match op.apply t with
    | some t1 => run_ops t1 ops
    | none => none

/-- Number of entries of the list whose `bg` flag is non-zero. -/
def count_bg (l : List process_node) : Int :=
  ((l.filter (fun n => decide (n.bg ≠ 0))).length : Int)

/-! ## Signal dispositions (lines 18, 113-146) -/

/-- Highest signal number the loop of `set_handler` visits (global `MAX_SIG`). -/
def MAX_SIG : Nat := 31

/-- Modelled from the spec: the signal numbers come from `signal.h`, which is not part of
the sources; the spec names the signals only by role (job-control signals, the
child-termination signal), so the Linux numbering is used. -/
def SIGKILL : Nat := 9

/-- Modelled from the spec: see `SIGKILL`; the stop signal that cannot be caught. -/
def SIGSTOP : Nat := 19

/-- Modelled from the spec: see `SIGKILL`; the child-termination signal. -/
def SIGCHLD : Nat := 17

/-- Modelled from the spec: see `SIGKILL`; the terminal interrupt signal. -/
def SIGINT : Nat := 2

/-- Value of `sa_handler`: the two constants and the one handler function of the file. -/
inductive Handler where
  | SIG_DFL
  | SIG_IGN
  | sigchild_handler
  deriving DecidableEq, Repr

/-- Disposition of every signal number of one process. -/
abbrev SigTable := Nat → Handler

/-- Dispositions of a process that has not called `sigaction`. -/
def SigTable.default : SigTable := fun _ => Handler.SIG_DFL

/-- A successful `sigaction(sig, &sa, NULL)`. -/
def sigaction (d : SigTable) (sig : Nat) (h : Handler) : SigTable :=
  fun s => if s = sig then h else d s

/-- `sigchild_handler`, lines 113-115, on the global `num_bg_programs`. -/
def sigchild_handler (num_bg_programs : Int) : Int := num_bg_programs - 1

/-- One round of the loop of lines 126-133 for signal number `i`. -/
def set_handler_step (sa : Handler) (d : SigTable) (i : Nat) : SigTable :=
  if i ≠ SIGKILL ∧ i ≠ SIGSTOP then sigaction d i sa else d

/-- `set_handler(set_val)`, lines 116-146: the new dispositions and the return value. -/
def set_handler (d : SigTable) (set_val : Int) : SigTable × Int :=
  let sa : Handler := if set_val = 1 then Handler.SIG_DFL else Handler.SIG_IGN
  let d1 := (List.range' 1 MAX_SIG).foldl (set_handler_step sa) d
  if set_val ≠ 0 then (sigaction d1 SIGCHLD Handler.sigchild_handler, 0)
  else (d1, 0)

/-! ## Tokens -/

/-- Modelled from the spec: the tokenizer (`tokenizer.h`) is not part of the sources; the
spec describes its result as an ordered sequence of words and operator tokens.
`tokens_get_token(tokens, i)` is the token at position `i`, and `NULL` outside the
sequence. -/
def tokens_get_token (tokens : List String) (i : Nat) : Option String := tokens.get? i

/-- Modelled from the spec: see `tokens_get_token`; the number of tokens. -/
def tokens_get_length (tokens : List String) : Nat := tokens.length

/-- The test `strcmp(token, redirect_left) == 0 || strcmp(token, redirect_right) == 0 ||
strcmp(token, pipe_char) == 0` of lines 183 and 332. -/
def is_operator (token : String) : Bool :=
  decide (token = "<") || decide (token = ">") || decide (token = "|")

/-! ## execute_process (lines 174-219) -/

/-- The loop of lines 181-187 from index `i`: the first index below `end_index` that
holds an operator, or `end_index`.  `none` when a token read is `NULL`. -/
def find_end (tokens : List String) : Nat → Nat → Nat → Option Nat
  | 0, _, end_index => some end_index
  | fuel + 1, i, end_index =>
    if i < end_index then
      match tokens_get_token tokens i with
      | none => none
      | some token =>
        if is_operator token then some i else find_end tokens fuel (i + 1) end_index
    else some end_index

/-- The loop of lines 191-196: the tokens at `i, i+1, ..., end_index - 1`. -/
def copy_args (tokens : List String) : Nat → Nat → Nat → Option (List String)
  | 0, _, _ => some []
  | fuel + 1, i, end_index =>
    if i < end_index then
      match tokens_get_token tokens i, copy_args tokens fuel (i + 1) end_index with
      | some token, some l => some (token :: l)
      | _, _ => none
    else some []

/-- Lines 175-197: `input_path` and the vector `args` passed to the first `execv`.
`none` where the C code is undefined: a `NULL` token, or `end_index` below `start_index`
after line 177 (then `num_args` wraps around). -/
def build_args (tokens : List String) (start_index end_index : Nat) :
    Option (String × List String) :=
  match tokens_get_token tokens (tokens_get_length tokens - 1) with
  | none => none
  | some final_token =>
    if decide (final_token = "&") && decide (end_index = 0) then none
    else
      let end_index := if final_token = "&" then end_index - 1 else end_index
      match tokens_get_token tokens start_index with
      | none => none
      | some input_path =>
        match find_end tokens (end_index - start_index) start_index end_index with
        | none => none
        | some end_index =>
          if end_index < start_index then none
          else
            match copy_args tokens (end_index - start_index) start_index end_index with
            | none => none
            | some args => some (input_path, args)

/-- The part of `strtok` that skips leading delimiters. -/
def skip_delims (delim : Char) : List Char → List Char
  | [] => []
  | c :: cs => if c = delim then skip_delims delim cs else c :: cs

/-- The part of `strtok` that reads up to the next delimiter: the token, and what follows
the delimiter. -/
def take_token (delim : Char) : List Char → List Char × List Char
  | [] => ([], [])
  | c :: cs =>
    if c = delim then ([], cs)
    else ((c :: (take_token delim cs).1), (take_token delim cs).2)

/-- One call of `strtok`: the next token and the rest, or `none` for `NULL`. -/
def strtok (delim : Char) (s : List Char) : Option (List Char × List Char) :=
  match skip_delims delim s with
  | [] => none
  | c :: cs => some (take_token delim (c :: cs))

/-- The tokens returned by the calls of `strtok` at lines 205 and 215, in order. -/
def strtok_loop (delim : Char) : Nat → List Char → List (List Char)
  | 0, _ => []
  | fuel + 1, s =>
    match strtok delim s with
    | none => []
    | some (curr_path, rest) => curr_path :: strtok_loop delim fuel rest

/-- One call of `execv`. -/
structure ExecCall where
  path : String
  argv : List String
  deriving DecidableEq, Repr

/-- Lines 208-214 for one `curr_path`: `args[0]` is replaced by the joined path. -/
def path_call (input_path : String) (args : List String) (curr_path : List Char) : ExecCall :=
  let joined := String.mk curr_path ++ "/" ++ input_path
  ⟨joined, joined :: args.tail⟩

/-- `execute_process(tokens, start_index, end_index)` with `getenv("PATH")` equal to
`all_paths`: the calls of `execv` it makes, in order, when each of them fails (a call
that succeeds does not return, and ends the sequence there).  `none` where the C code is
undefined: `build_args` undefined, `PATH` unset (`strtok` on `NULL`), or `args` empty
when `args[0]` is overwritten at line 209. -/
def execute_process (tokens : List String) (all_paths : Option String)
    (start_index end_index : Nat) : Option (List ExecCall) :=
  match build_args tokens start_index end_index with
  | none => none
  | some (input_path, args) =>
    match all_paths with
    | none => none
    | some all_paths =>
      let dirs := strtok_loop ':' (all_paths.data.length + 1) all_paths.data
      if decide (args = []) && decide (dirs ≠ []) then none
      else some (⟨input_path, args⟩ :: dirs.map (path_call input_path args))

/-! ## The stage loop of main (lines 313-431) -/

/-- What descriptor 0 or 1 of a process refers to. -/
inductive Desc where
  | shell_stdin
  | shell_stdout
  | in_file (path : String)
  | out_file (path : String)
  | pipe_read (index : Nat)
  | pipe_write (index : Nat)
  deriving DecidableEq, Repr

/-- A child forked by the stage loop, at the moment it calls
`execute_process(tokens, start_index, end_index)` (line 401): its descriptors 0 and 1 and
its signal dispositions. -/
structure StageProc where
  start_index : Nat
  end_index : Nat
  fd0 : Desc
  fd1 : Desc
  disp : SigTable

/-- What becomes of a forked child once it calls `execute_process`: every `execv` fails
and `execute_process` returns; or one `execv` succeeds and the program later exits; or
one `execv` succeeds and the program never exits. -/
inductive Outcome where
  | exec_fails
  | exits
  | runs_on
  deriving DecidableEq, Repr

/-- What the code leaves to its surroundings: which paths `open` can open, what becomes
of a child that calls `execute_process`, and whether the two descriptors that
`pipe(pipefds[num_pipes])` stores past the end of `pipefds` leave the variables of the
loop as they are. -/
structure Env where
  openOk : String → Bool
  outcome : StageProc → Outcome
  oob_harmless : Bool

/-- What a process running the stage loop does that the claims observe. -/
inductive Event where
  | perror (msg : String)
  | pipe (index : Nat)
  | spawn (p : StageProc)

/-- Where a process running the stage loop stands: going on; waiting for ever in the
`waitpid` of line 417 for a child that does not terminate; or past a store outside
`pipefds` that was not harmless, with nothing known about it any more. -/
inductive Status where
  | ok
  | blocked
  | undefined
  deriving DecidableEq, Repr

/-- Locals of the stage loop (lines 323-326) and descriptors 0 and 1 of the process
running it, with its events so far (`log`), where it stands (`status`), and the children
that have called `execute_process` among all its descendants, in the order of the calls
(`calls`). -/
structure LoopState where
  prev_index : Nat
  pipe_index : Nat
  prev_token : String
  pipe_seen : Bool
  fd0 : Desc
  fd1 : Desc
  log : List Event
  status : Status
  calls : List StageProc

/-- Lines 314-320: the number of `|` tokens. -/
def count_pipes (tokens : List String) : Nat :=
  tokens.foldl (fun num_pipes token => if token = "|" then num_pipes + 1 else num_pipes) 0

/-- `open(filename, ...)` followed by `dup2` and `close` (lines 338-348 and 351-360):
the new value of the descriptor and the messages printed. -/
def redirect (openOk : String → Bool) (filename : Option String) (mk : String → Desc)
    (old : Desc) : Desc × List Event :=
  match filename with
  | some f =>
    if openOk f then (mk f, [])
    else (old, [Event.perror "error opening file", Event.perror "error while duping"])
  | none => (old, [Event.perror "error opening file", Event.perror "error while duping"])

/-- Lines 368-401 in the forked child: descriptors 0 and 1 when it calls
`execute_process`. -/
def child_fds (num_args num_pipes i : Nat) (token : String) (st : LoopState) : Desc × Desc :=
  let fds : Desc × Desc :=
    if token = "|" then
      if st.pipe_seen = false then (st.fd0, Desc.pipe_write st.pipe_index)
      else if st.pipe_index < num_pipes then
        (Desc.pipe_read (st.pipe_index - 1), Desc.pipe_write st.pipe_index)
      else (Desc.pipe_read (st.pipe_index - 1), st.fd1)
    else (st.fd0, st.fd1)
  if i = num_args ∧ st.pipe_seen = true ∧ st.prev_token = "|" then
    (Desc.pipe_read (st.pipe_index - 1), fds.2)
  else fds

/-- Lines 401-402 and 411-417, seen from the parent: how its `waitpid` on the child ends,
and the calls of `execute_process` made below the child.  A child whose program exits
terminates; a child whose program runs on never does; a child whose `execute_process`
returns prints `exec failed` and, there being no `exit` at line 402, goes on with its
own copy of the loop, whose end state is `continued`. -/
def child_end (env : Env) (child : StageProc) (continued : LoopState) :
    Status × List StageProc :=
  match env.outcome child with
  | Outcome.exits => (Status.ok, [])
  | Outcome.runs_on => (Status.blocked, [])
  | Outcome.exec_fails => (continued.status, continued.calls)

/-- Lines 361-429: the branch that forks a stage.  `rest_of_loop` is the run of the loop
from the next round of the `for` on, in a given state.  The parent creates the pipe and
forks; the child wires its descriptors and calls `execute_process`; the parent closes
the write end, waits for the child (lines 412-417 wait whether or not the line ends in
`&`) and only then sets `prev_index` and `prev_token`.  The message of line 420, which
depends on the exit status of the child, is left out. -/
def fork_stage (tokens : List String) (env : Env) (disp : SigTable) (i : Nat)
    (token : String) (rest_of_loop : LoopState → LoopState) (st : LoopState) : LoopState :=
  let num_args := tokens_get_length tokens
  let num_pipes := count_pipes tokens
  let log := st.log ++ [Event.pipe st.pipe_index]
  if num_pipes ≤ st.pipe_index ∧ env.oob_harmless = false then
    { st with log := log, status := Status.undefined }
  else
    let fds := child_fds num_args num_pipes i token st
    let child : StageProc := ⟨st.prev_index, i, fds.1, fds.2, disp⟩
    let in_child : LoopState :=
      { st with fd0 := fds.1, fd1 := fds.2, calls := [],
                log := [Event.perror "program was not executed!",
                        Event.perror "exec failed"] }
    let ended := child_end env child (rest_of_loop in_child)
    let forked : LoopState :=
      { st with log := log ++ [Event.spawn child],
                calls := st.calls ++ child :: ended.2,
                pipe_seen := if token = "|" then true else st.pipe_seen,
                pipe_index := if token = "|" then st.pipe_index + 1 else st.pipe_index }
    match ended.1 with
    | Status.ok => { forked with prev_index := i + 1, prev_token := token }
    | Status.blocked => { forked with status := Status.blocked }
    | Status.undefined => { forked with status := Status.undefined }

/-- Lines 337-429: the body of the `for` loop after the inner `while`, with `i` and
`token` as the `while` left them.  A process that is blocked, or about which nothing is
known, does nothing more. -/
def loop_body (tokens : List String) (env : Env) (disp : SigTable)
    (i : Nat) (token : String) (rest_of_loop : LoopState → LoopState) (st : LoopState) :
    LoopState :=
  let num_args := tokens_get_length tokens
  if st.status ≠ Status.ok then st
  else if token = ">" then
    let r := redirect env.openOk (tokens_get_token tokens (i + 1)) Desc.out_file st.fd1
    { st with fd1 := r.1, log := st.log ++ r.2 }
  else if token = "<" then
    let r := redirect env.openOk (tokens_get_token tokens (i + 1)) Desc.in_file st.fd0
    { st with fd0 := r.1, log := st.log ++ r.2 }
  else if token = "|" ∨ i = num_args then
    fork_stage tokens env disp i token rest_of_loop st
  else st

/-- The `for` loop of line 328 with its inner `while` (lines 330-336).  `rest` holds the
tokens at positions `i, i+1, ...`.  `cur` is `none` at the top of the `for` loop and
`some token` inside the `while` after `token` (not an operator) was read at `i - 1`.
With no token left: at the top of the `for` loop the loop ends; inside the `while`,
`i == num_args`, the body runs once more with the last token read, and the loop ends.
A child forked by the body at position `i` that comes back from `execute_process` goes
on at the `i++` of the `for`: the rest of its loop is this same loop on `rest`. -/
def stage_for (tokens : List String) (env : Env) (disp : SigTable) :
    List String → Nat → Option String → LoopState → LoopState
  | [], _, none, st => st
  | [], i, some token, st => loop_body tokens env disp i token (fun s => s) st
  | t :: rest, i, _, st =>
    if is_operator t then
      stage_for tokens env disp rest (i + 1) none
        (loop_body tokens env disp i t
          (fun s => stage_for tokens env disp rest (i + 1) none s) st)
    else stage_for tokens env disp rest (i + 1) (some t) st

/-- Locals at line 326, in a process whose descriptors 0 and 1 are those of the shell. -/
def LoopState.init : LoopState :=
  ⟨0, 0, "", false, Desc.shell_stdin, Desc.shell_stdout, [], Status.ok, []⟩

/-- Lines 313-431 in a process with dispositions `disp`. -/
def stage_loop (tokens : List String) (env : Env) (disp : SigTable) : LoopState :=
  stage_for tokens env disp tokens 0 none LoopState.init

/-- Surroundings in which every `open` succeeds, every program is found and exits, and
the store past the end of `pipefds` is harmless. -/
def Env.benign : Env := ⟨fun _ => true, fun _ => Outcome.exits, true⟩

/-- The children forked, in order. -/
def spawns : List Event → List StageProc
  | [] => []
  | Event.spawn p :: l => p :: spawns l
  | _ :: l => spawns l

/-- The indices `k` of the calls `pipe(pipefds[k])`, in order. -/
def pipe_calls : List Event → List Nat
  | [] => []
  | Event.pipe k :: l => k :: pipe_calls l
  | _ :: l => pipe_calls l

/-- The messages printed with `perror`, in order. -/
def perrors : List Event → List String
  | [] => []
  | Event.perror m :: l => m :: perrors l
  | _ :: l => perrors l

/-- The arguments `(start_index, end_index)` of the calls of `execute_process`. -/
def StageProc.range (p : StageProc) : Nat × Nat := (p.start_index, p.end_index)

/-- The vector `args` a stage builds in `execute_process`. -/
def StageProc.args (tokens : List String) (p : StageProc) : Option (List String) :=
  (build_args tokens p.start_index p.end_index).map Prod.snd

/-! ## One iteration of the read loop of main (lines 263-298) -/

/-- Names of the built-in commands, in the order of `cmd_table`. -/
def cmd_table : List String := ["?", "exit", "pwd", "cd", "wait"]

/-- `lookup(cmd)`, lines 107-112. -/
def lookup (cmd : Option String) : Int :=
  match cmd with
  | none => -1
  | some c => if c ∈ cmd_table then (cmd_table.indexOf c : Int) else -1

/-- Globals of the shell process and its signal dispositions. -/
structure ShellState where
  disp : SigTable
  num_bg_programs : Int
  table : ProcTable

/-- The shell when `main` enters its read loop. -/
def ShellState.init : ShellState := ⟨SigTable.default, 0, ProcTable.init⟩

/-- What the child shell forked at line 276 does: it runs a built-in, or the stage loop. -/
inductive ChildRun where
  | builtin (fundex : Int)
  | stages (st : LoopState)

/-- Result of one iteration. -/
inductive IterResult where
  | undefined
  | exited
  | next (sh : ShellState) (child : ChildRun)

/-- One iteration of the `while` loop of `main` for a tokenized line, in the shell
process, where `fork` returns the pid `pid1` of the child shell.  The child forked at
line 276 starts with a copy of the dispositions the shell has at that moment, and no
line between that `fork` and a call of `execute_process` changes them.  `undefined`
when `final_token` is `NULL` at line 273 or the counter of `add_node` overflows. -/
def main_iteration (sh : ShellState) (tokens : List String) (env : Env)
    (pid1 : Int) : IterResult :=
  let num_args := tokens_get_length tokens
  let fundex := lookup (tokens_get_token tokens 0)
  if fundex = 1 then IterResult.exited
  else
    match tokens_get_token tokens (num_args - 1) with
    | none => IterResult.undefined
    | some final_token =>
      let background_process : Int := if final_token = "&" then 1 else 0
      let child : ChildRun :=
        if fundex ≥ 0 then ChildRun.builtin fundex
        else ChildRun.stages (stage_loop tokens env sh.disp)
      let disp := (set_handler sh.disp 0).1
      match add_node sh.table pid1 background_process with
      | none => IterResult.undefined
      | some table =>
        let num_bg_programs :=
          if background_process = 0 then sh.num_bg_programs else sh.num_bg_programs + 1
        IterResult.next ⟨disp, num_bg_programs, (remove_node table pid1).table⟩ child

/-- Delivery of `SIGCHLD` to the shell: the installed handler runs; an ignored signal,
and `SIGCHLD` under the default disposition, are discarded. -/
def deliver_SIGCHLD (sh : ShellState) : ShellState :=
  match sh.disp SIGCHLD with
  | Handler.sigchild_handler =>
    { sh with num_bg_programs := sigchild_handler sh.num_bg_programs }
  | Handler.SIG_IGN => sh
  | Handler.SIG_DFL => sh

/-- The loop condition of `cmd_wait` (line 97): true when the loop exits. -/
def cmd_wait_exits (sh : ShellState) : Bool := decide (sh.num_bg_programs = 0)

/-! ## Notions used by the specification -/

/-- An argument token: neither `|`, `<`, `>` nor `&`. -/
def is_argument (t : String) : Bool := !is_operator t && !decide (t = "&")

/-- Every `|`, `<`, `>` is followed by an argument, and `&` is only the final token. -/
def valid_rest : List String → Bool
  | [] => true
  | [t] => is_argument t || decide (t = "&")
  | t :: u :: rest =>
    if is_operator t then is_argument u && valid_rest (u :: rest)
    else if t = "&" then false
    else valid_rest (u :: rest)

/-- A valid token stream: non-empty, starts with an argument, every `|`, `<`, `>` is
followed by an argument, `&` only as the final token. -/
def valid_tokens : List String → Bool
  | [] => false
  | t :: rest => is_argument t && valid_rest (t :: rest)

/-- Some `|`, `<` or `>` is not followed by an argument token: it is the last token, or
the next token is an operator or `&`. -/
def missing_argument : List String → Bool
  | [] => false
  | [t] => is_operator t
  | t :: u :: rest => (is_operator t && !is_argument u) || missing_argument (u :: rest)

/-- Stages of a line as the token ranges between its `|` tokens: `start` is where the
current stage began, `i` the position of the head of the list. -/
def stage_ranges_from : List String → Nat → Nat → List (Nat × Nat)
  | [], start, i => [(start, i)]
  | t :: rest, start, i =>
    if t = "|" then (start, i) :: stage_ranges_from rest (i + 1) (i + 1)
    else stage_ranges_from rest start (i + 1)

/-- The range `(first token, one past the last token)` of every stage, left to right. -/
def stage_ranges (tokens : List String) : List (Nat × Nat) := stage_ranges_from tokens 0 0

/-- Directories listed in a `PATH` value: its non-empty segments between colons. -/
def path_dirs (all_paths : String) : List String :=
  ((all_paths.data.splitOn ':').filter (fun d => decide (d ≠ []))).map String.mk

/-- Paths as the specification words the search: the name alone when it contains a `/`,
otherwise the name joined to every directory of `PATH`. -/
def claimed_exec_paths (name all_paths : String) : List String :=
  if '/' ∈ name.data then [name]
  else (path_dirs all_paths).map (fun dir => dir ++ "/" ++ name)

/-- Paths with the name itself tried first and then joined to every directory of `PATH`,
whether or not it contains a `/`. -/
def direct_then_path (name all_paths : String) : List String :=
  name :: (path_dirs all_paths).map (fun dir => dir ++ "/" ++ name)

/-- The counter agrees with the list. -/
def table_ok (t : ProcTable) : Prop := t.num_bg_processes = count_bg t.process_list

/-- The shell after an iteration that returns to the top of the read loop. -/
def IterResult.shell? : IterResult → Option ShellState
  | IterResult.next sh _ => some sh
  | _ => none

/-- The stage processes forked by the child shell of an iteration. -/
def IterResult.stages : IterResult → List StageProc
  | IterResult.next _ (ChildRun.stages st) => spawns st.log
  | _ => []

/-- Surroundings in which every `open` succeeds, no program is found for a stage that
starts at token 0, every other program is found and exits, and the store past the end
of `pipefds` is harmless. -/
def Env.first_not_found : Env :=
  ⟨fun _ => true,
   fun p => if p.start_index = 0 then Outcome.exec_fails else Outcome.exits, true⟩

/-- Surroundings in which every `open` succeeds, the program of a stage that starts at
token 0 never exits, every other program exits, and the store past the end of `pipefds`
is harmless. -/
def Env.first_runs_on : Env :=
  ⟨fun _ => true,
   fun p => if p.start_index = 0 then Outcome.runs_on else Outcome.exits, true⟩

/-- The children the stage loop forks, read off the tokens from position `i` on: `inw`
tells whether the inner `while` has read a token of the current round, `k` pipes were
created before, the current stage began at `start`, and `fd0`, `fd1` are descriptors 0
and 1 of the looping process. -/
def expected_from (openOk : String → Bool) (disp : SigTable) :
    List String → Nat → Bool → Nat → Nat → Desc → Desc → List StageProc
  | [], i, inw, k, start, fd0, fd1 =>
    if inw then [⟨start, i, if k = 0 then fd0 else Desc.pipe_read (k - 1), fd1, disp⟩]
    else []
  | t :: rest, i, _, k, start, fd0, fd1 =>
    if t = "|" then
      ⟨start, i, if k = 0 then fd0 else Desc.pipe_read (k - 1), Desc.pipe_write k, disp⟩
        :: expected_from openOk disp rest (i + 1) false (k + 1) (i + 1) fd0 fd1
    else if t = ">" then
      expected_from openOk disp rest (i + 1) false k start fd0
        (redirect openOk rest.head? Desc.out_file fd1).1
    else if t = "<" then
      expected_from openOk disp rest (i + 1) false k start
        (redirect openOk rest.head? Desc.in_file fd0).1 fd1
    else expected_from openOk disp rest (i + 1) true k start fd0 fd1

/-! ## Process list: lemmas -/

theorem count_bg_append (a b : List process_node) :
    count_bg (a ++ b) = count_bg a + count_bg b := by
  simp [count_bg, List.filter_append]

theorem count_bg_nonneg (l : List process_node) : 0 ≤ count_bg l := by
  simp [count_bg]

theorem count_bg_le_length (l : List process_node) : count_bg l ≤ (l.length : Int) := by
  unfold count_bg
  exact_mod_cast List.length_filter_le _ l

theorem count_bg_single (n : process_node) :
    count_bg [n] = if n.bg ≠ 0 then 1 else 0 := by
  by_cases h : n.bg = 0 <;> simp [count_bg, List.filter, h]

theorem remove_scan_some {pid : Int} {l seen l1 : List process_node} {n : process_node}
    (h : remove_scan pid seen l = some (l1, n)) :
    ∃ a b, l = a ++ n :: b ∧ l1 = seen ++ a ++ b := by
  induction l generalizing seen with
  | nil => simp [remove_scan] at h
  | cons x xs ih =>
    unfold remove_scan at h
    split at h
    · simp only [Option.some.injEq, Prod.mk.injEq] at h
      obtain ⟨h1, h2⟩ := h
      subst h1 h2
      exact ⟨[], xs, rfl, by simp⟩
    · obtain ⟨a, b, h1, h2⟩ := ih h
      exact ⟨x :: a, b, by simp [h1], by simp [h2]⟩

theorem remove_scan_none {pid : Int} {l : List process_node} (seen : List process_node)
    (h : ∀ n ∈ l, n.pid ≠ pid) : remove_scan pid seen l = none := by
  induction l generalizing seen with
  | nil => rfl
  | cons x xs ih =>
    unfold remove_scan
    rw [if_neg (h x (List.mem_cons_self x xs))]
    exact ih _ (fun n hn => h n (List.mem_cons_of_mem x hn))

theorem add_node_ok {t t1 : ProcTable} {pid bg : Int} (ht : table_ok t)
    (h : add_node t pid bg = some t1) :
    table_ok t1 ∧ t1.process_list.length = t.process_list.length + 1 := by
  unfold add_node at h
  unfold table_ok at ht ⊢
  by_cases hbg : bg = 0
  · simp only [hbg, ne_eq, not_true_eq_false, if_false, Option.some.injEq] at h
    subst h
    simp [count_bg_append, count_bg_single, ht]
  · simp only [ne_eq, hbg, not_false_eq_true, if_true] at h
    split at h
    · exact absurd h (by simp)
    · simp only [Option.some.injEq] at h
      subst h
      simp [count_bg_append, count_bg_single, ht, hbg]

theorem add_node_defined {t : ProcTable} (pid bg : Int) (ht : table_ok t)
    (hlen : t.process_list.length < 2147483647) : ∃ t1, add_node t pid bg = some t1 := by
  unfold add_node
  by_cases hbg : bg = 0
  · simp [hbg]
  · have h1 := count_bg_le_length t.process_list
    have h2 : t.num_bg_processes ≠ INT_MAX := by
      unfold table_ok at ht
      unfold INT_MAX
      omega
    simp [hbg, h2]

theorem remove_node_ok {t : ProcTable} (pid : Int) (ht : table_ok t) :
    table_ok (remove_node t pid).table ∧
      (remove_node t pid).table.process_list.length ≤ t.process_list.length := by
  unfold remove_node
  unfold table_ok at ht ⊢
  cases hs : remove_scan pid [] t.process_list with
  | none => exact ⟨ht, le_refl _⟩
  | some r =>
    obtain ⟨l1, n⟩ := r
    obtain ⟨a, b, h1, h2⟩ := remove_scan_some hs
    have hc : count_bg t.process_list = count_bg a + count_bg [n] + count_bg b := by
      rw [h1, count_bg_append, show n :: b = [n] ++ b from rfl, count_bg_append]
      ring
    have hl : l1.length + 1 = t.process_list.length := by
      rw [h1, h2]
      simp
      omega
    have hc1 : count_bg l1 = count_bg a + count_bg b := by
      rw [h2]
      simp [count_bg_append, count_bg]
    by_cases hbg : n.bg = 0
    · simp only [hbg, ne_eq, not_true_eq_false, if_false]
      rw [count_bg_single] at hc
      simp only [hbg, ne_eq, not_true_eq_false, if_false] at hc
      exact ⟨by rw [ht, hc, hc1]; ring, by omega⟩
    · simp only [ne_eq, hbg, not_false_eq_true, if_true]
      rw [count_bg_single] at hc
      simp only [ne_eq, hbg, not_false_eq_true, if_true] at hc
      exact ⟨by rw [ht, hc, hc1]; ring, by omega⟩

theorem run_ops_ok (ops : List TableOp) (t : ProcTable) (ht : table_ok t) :
    (t.process_list.length + ops.length ≤ 2147483647 → ∃ t1, run_ops t ops = some t1) ∧
      ∀ t1, run_ops t ops = some t1 → table_ok t1 := by
  induction ops generalizing t with
  | nil =>
    refine ⟨fun _ => ⟨t, rfl⟩, fun t1 h => ?_⟩
    simp only [run_ops, Option.some.injEq] at h
    exact h ▸ ht
  | cons op ops ih =>
    cases op with
    | add pid bg =>
      constructor
      · intro hlen
        simp only [List.length_cons] at hlen
        obtain ⟨t1, h1⟩ := add_node_defined pid bg ht (by omega)
        obtain ⟨hok, hl⟩ := add_node_ok ht h1
        obtain ⟨t2, h2⟩ := (ih t1 hok).1 (by omega)
        exact ⟨t2, by simp [run_ops, TableOp.apply, h1, h2]⟩
      · intro t2 h
        simp only [run_ops, TableOp.apply] at h
        cases h1 : add_node t pid bg with
        | none => simp [h1] at h
        | some t1 =>
          simp only [h1] at h
          exact (ih t1 (add_node_ok ht h1).1).2 t2 h
    | remove pid =>
      obtain ⟨hok, hl⟩ := remove_node_ok pid ht
      constructor
      · intro hlen
        simp only [List.length_cons] at hlen
        obtain ⟨t2, h2⟩ := (ih _ hok).1 (by omega)
        exact ⟨t2, by simp [run_ops, TableOp.apply, h2]⟩
      · intro t2 h
        simp only [run_ops, TableOp.apply] at h
        exact (ih _ hok).2 t2 h

/-! ## Process list: claims -/

/-- C5. Starting from the empty process list with `num_bg_processes = 0`, every finite
sequence of `add_node` and `remove_node` calls of at most `INT_MAX` calls runs without
overflow of the counter, and after any sequence that runs, `num_bg_processes` equals the
number of entries of `process_list` whose `bg` flag is non-zero. -/
theorem num_bg_processes_counts_bg_entries (ops : List TableOp) :
    (ops.length ≤ 2147483647 → ∃ t, run_ops ProcTable.init ops = some t) ∧
      ∀ t, run_ops ProcTable.init ops = some t →
        t.num_bg_processes = count_bg t.process_list := by
  have h := run_ops_ok ops ProcTable.init (by simp [table_ok, ProcTable.init, count_bg])
  refine ⟨fun hlen => h.1 ?_, fun t ht => h.2 t ht⟩
  simpa [ProcTable.init] using hlen

/-- Witness for C5: three backgrounds and foregrounds added, two removed. -/
theorem num_bg_processes_counts_bg_entries_witness :
    (∃ t, run_ops ProcTable.init
        [TableOp.add 10 1, TableOp.add 11 0, TableOp.add 12 1, TableOp.remove 10,
         TableOp.remove 99] = some t) ∧
      (⟨[⟨11, 0⟩, ⟨12, 1⟩], 1⟩ : ProcTable).num_bg_processes
        = count_bg (⟨[⟨11, 0⟩, ⟨12, 1⟩], 1⟩ : ProcTable).process_list :=
  ⟨(num_bg_processes_counts_bg_entries _).1 (by decide),
   (num_bg_processes_counts_bg_entries
      [TableOp.add 10 1, TableOp.add 11 0, TableOp.add 12 1, TableOp.remove 10,
       TableOp.remove 99]).2 _ (by decide)⟩

/-- C6, as stated, fails: `remove_node` returns nothing, so what its caller gets after a
call on an absent pid (here pid 7 on the empty list) is what it gets after a removal
that succeeded (pid 7 on a list holding only pid 7); no test on it tells the two apart. -/
theorem remove_node_absent_pid_not_signalled_to_caller :
    (∀ n ∈ (⟨[], 0⟩ : ProcTable).process_list, n.pid ≠ 7) ∧
      (∃ n ∈ (⟨[⟨7, 0⟩], 0⟩ : ProcTable).process_list, n.pid = 7) ∧
      ¬ ∃ failed : ProcTable → Bool,
          failed (remove_node ⟨[], 0⟩ 7).table = true ∧
          failed (remove_node ⟨[⟨7, 0⟩], 0⟩ 7).table = false := by
  refine ⟨by simp, ⟨⟨7, 0⟩, by simp, rfl⟩, ?_⟩
  rintro ⟨failed, h1, h2⟩
  have e : (remove_node ⟨[], 0⟩ 7).table = (remove_node ⟨[⟨7, 0⟩], 0⟩ 7).table := by decide
  rw [e, h2] at h1
  exact Bool.noConfusion h1

/-- C6, amended. For every process list and every pid that is not the pid of any entry,
`remove_node(pid)` prints `node not in process list - cannot remove` on standard error
and returns, leaving the process list (same entries, same order) and `num_bg_processes`
unchanged. -/
theorem remove_node_absent_pid (t : ProcTable) (pid : Int)
    (h : ∀ n ∈ t.process_list, n.pid ≠ pid) :
    remove_node t pid = ⟨t, ["node not in process list - cannot remove"]⟩ := by
  unfold remove_node
  rw [remove_scan_none [] h]

/-- Witness for the amended C6: pid 5 on a list holding pids 1 and 2. -/
theorem remove_node_absent_pid_witness :
    remove_node ⟨[⟨1, 0⟩, ⟨2, 1⟩], 1⟩ 5
      = ⟨⟨[⟨1, 0⟩, ⟨2, 1⟩], 1⟩, ["node not in process list - cannot remove"]⟩ :=
  remove_node_absent_pid ⟨[⟨1, 0⟩, ⟨2, 1⟩], 1⟩ 5 (by decide)

/-! ## Stage loop: lemmas -/

theorem spawns_append (a b : List Event) : spawns (a ++ b) = spawns a ++ spawns b := by
  induction a with
  | nil => rfl
  | cons e a ih => cases e <;> simp [spawns, ih]

theorem is_operator_cases {t : String} (h : is_operator t = true) :
    t = "<" ∨ t = ">" ∨ t = "|" := by
  simpa [is_operator, or_assoc] using h

theorem not_operator {t : String} (h : is_operator t = false) :
    t ≠ "<" ∧ t ≠ ">" ∧ t ≠ "|" := by
  simpa [is_operator, and_assoc] using h

theorem count_pipes_foldl (l : List String) (n : Nat) :
    l.foldl (fun num_pipes token => if token = "|" then num_pipes + 1 else num_pipes) n
      = n + l.count "|" := by
  induction l generalizing n with
  | nil => simp
  | cons t l ih =>
    by_cases h : t = "|"
    · simp [List.foldl_cons, ih, h, List.count_cons]
      omega
    · simp [List.foldl_cons, ih, h, List.count_cons]

theorem count_pipes_eq_count (tokens : List String) : count_pipes tokens = tokens.count "|" := by
  simp [count_pipes, count_pipes_foldl]

theorem get_after_drop {tokens rest : List String} {t : String} {i : Nat}
    (h : tokens.drop i = t :: rest) :
    tokens_get_token tokens (i + 1) = rest.head? ∧ tokens.drop (i + 1) = rest := by
  have h2 : tokens.drop (i + 1) = rest := by
    have := congrArg (List.drop 1) h
    simpa [List.drop_drop, Nat.add_comm] using this
  refine ⟨?_, h2⟩
  unfold tokens_get_token
  rw [List.get?_eq_getElem?, ← h2, List.head?_drop]

theorem spawns_redirect (openOk : String → Bool) (filename : Option String)
    (mk : String → Desc) (old : Desc) : spawns (redirect openOk filename mk old).2 = [] := by
  unfold redirect
  cases filename with
  | none => rfl
  | some f => cases h : openOk f <;> simp [h, spawns]

theorem loop_body_stuck (tokens : List String) (env : Env) (disp : SigTable) (i : Nat)
    (token : String) (rest_of_loop : LoopState → LoopState) (st : LoopState)
    (h : st.status ≠ Status.ok) : loop_body tokens env disp i token rest_of_loop st = st := by
  simp [loop_body, h]

theorem stage_for_stuck (tokens : List String) (env : Env) (disp : SigTable) :
    ∀ (rest : List String) (i : Nat) (cur : Option String) (st : LoopState),
      st.status ≠ Status.ok → stage_for tokens env disp rest i cur st = st := by
  intro rest
  induction rest with
  | nil =>
    intro i cur st h
    cases cur with
    | none => rfl
    | some token => simp [stage_for, loop_body_stuck _ _ _ _ _ _ _ h]
  | cons t rest ih =>
    intro i cur st h
    cases hop : is_operator t with
    | false => simp [stage_for, hop, ih _ _ _ h]
    | true => simp [stage_for, hop, loop_body_stuck _ _ _ _ _ _ _ h, ih _ _ _ h]

/-- What `fork_stage` leaves in the parent when the pipe index is inside `pipefds` or the
store outside it is harmless. -/
theorem fork_stage_parent (tokens : List String) (env : Env) (disp : SigTable) (i : Nat)
    (token : String) (rest_of_loop : LoopState → LoopState) (st : LoopState)
    (hin : ¬ (count_pipes tokens ≤ st.pipe_index ∧ env.oob_harmless = false)) :
    (fork_stage tokens env disp i token rest_of_loop st).log
        = st.log ++ [Event.pipe st.pipe_index,
            Event.spawn ⟨st.prev_index, i,
              (child_fds (tokens_get_length tokens) (count_pipes tokens) i token st).1,
              (child_fds (tokens_get_length tokens) (count_pipes tokens) i token st).2,
              disp⟩] ∧
      (fork_stage tokens env disp i token rest_of_loop st).fd0 = st.fd0 ∧
      (fork_stage tokens env disp i token rest_of_loop st).fd1 = st.fd1 ∧
      (fork_stage tokens env disp i token rest_of_loop st).pipe_index
        = (if token = "|" then st.pipe_index + 1 else st.pipe_index) ∧
      (fork_stage tokens env disp i token rest_of_loop st).pipe_seen
        = (if token = "|" then true else st.pipe_seen) ∧
      ((fork_stage tokens env disp i token rest_of_loop st).status = Status.ok →
        (fork_stage tokens env disp i token rest_of_loop st).prev_index = i + 1 ∧
        (fork_stage tokens env disp i token rest_of_loop st).prev_token = token) := by
  unfold fork_stage
  simp only [hin, if_false]
  split <;> simp

theorem child_fds_at_pipe (num_args num_pipes i : Nat) (st : LoopState)
    (hi : i ≠ num_args) (hlt : st.pipe_index < num_pipes)
    (hseen : st.pipe_seen = decide (0 < st.pipe_index)) :
    child_fds num_args num_pipes i "|" st
      = (if st.pipe_index = 0 then st.fd0 else Desc.pipe_read (st.pipe_index - 1),
         Desc.pipe_write st.pipe_index) := by
  rcases Nat.eq_zero_or_pos st.pipe_index with hk | hk
  · have hs : st.pipe_seen = false := by simp [hseen, hk]
    simp [child_fds, hi, hk, hs]
  · have hs : st.pipe_seen = true := by simp [hseen, hk]
    have hk0 : st.pipe_index ≠ 0 := by omega
    simp [child_fds, hi, hk0, hs, hlt]

theorem child_fds_at_end (num_args num_pipes : Nat) (token : String) (st : LoopState)
    (ht : token ≠ "|") (hseen : st.pipe_seen = decide (0 < st.pipe_index))
    (hprev : 0 < st.pipe_index → st.prev_token = "|") :
    child_fds num_args num_pipes num_args token st
      = (if st.pipe_index = 0 then st.fd0 else Desc.pipe_read (st.pipe_index - 1),
         st.fd1) := by
  rcases Nat.eq_zero_or_pos st.pipe_index with hk | hk
  · have hs : st.pipe_seen = false := by simp [hseen, hk]
    simp [child_fds, ht, hk, hs]
  · have hs : st.pipe_seen = true := by simp [hseen, hk]
    have hk0 : st.pipe_index ≠ 0 := by omega
    simp [child_fds, ht, hk0, hs, hprev hk]

theorem loop_body_fork (tokens : List String) (env : Env) (disp : SigTable) (i : Nat)
    (token : String) (rest_of_loop : LoopState → LoopState) (st : LoopState)
    (hst : st.status = Status.ok) (h1 : token ≠ "<") (h2 : token ≠ ">")
    (h3 : token = "|" ∨ i = tokens.length) :
    loop_body tokens env disp i token rest_of_loop st
      = fork_stage tokens env disp i token rest_of_loop st := by
  simp [loop_body, hst, h1, h2, tokens_get_length, h3]

/-- The children forked by a process that runs the loop from a state reached by the loop
itself: a first part of the children read off the tokens, and all of them when the
process reaches the end of the loop. -/
theorem stage_for_spawns (tokens : List String) (env : Env) (disp : SigTable) :
    ∀ (rest : List String) (i : Nat) (cur : Option String) (st : LoopState),
      tokens.drop i = rest → i + rest.length = tokens.length →
      (∀ t, cur = some t → is_operator t = false) →
      st.pipe_index + rest.count "|" = count_pipes tokens →
      st.pipe_seen = decide (0 < st.pipe_index) →
      (0 < st.pipe_index → st.prev_token = "|") →
      (∃ m, spawns (stage_for tokens env disp rest i cur st).log
        = spawns st.log
          ++ (expected_from env.openOk disp rest i cur.isSome st.pipe_index st.prev_index
              st.fd0 st.fd1).take m) ∧
      ((stage_for tokens env disp rest i cur st).status = Status.ok →
        spawns (stage_for tokens env disp rest i cur st).log
          = spawns st.log
            ++ expected_from env.openOk disp rest i cur.isSome st.pipe_index st.prev_index
                st.fd0 st.fd1) := by
  intro rest
  induction rest with
  | nil =>
    intro i cur st hdrop hlen hcur hcnt hseen hprev
    cases cur with
    | none => exact ⟨⟨0, by simp [stage_for]⟩, fun _ => by simp [stage_for, expected_from]⟩
    | some token =>
      by_cases hst : st.status = Status.ok
      · obtain ⟨h1, h2, h3⟩ := not_operator (hcur token rfl)
        have hi : i = tokens.length := by simpa using hlen
        simp only [stage_for]
        rw [loop_body_fork tokens env disp i token _ st hst h1 h2 (Or.inr hi)]
        by_cases hin : count_pipes tokens ≤ st.pipe_index ∧ env.oob_harmless = false
        · have hf : fork_stage tokens env disp i token (fun s => s) st
              = { st with log := st.log ++ [Event.pipe st.pipe_index],
                          status := Status.undefined } := by
            simp [fork_stage, hin]
          rw [hf]
          refine ⟨⟨0, by simp [spawns_append, spawns]⟩, fun h => ?_⟩
          cases h
        · obtain ⟨hlog, _, _, _, _, _⟩ :=
            fork_stage_parent tokens env disp i token (fun s => s) st hin
          have hfds := child_fds_at_end tokens.length (count_pipes tokens) token st h3
            hseen hprev
          have hsp : spawns (fork_stage tokens env disp i token (fun s => s) st).log
              = spawns st.log
                ++ expected_from env.openOk disp [] i (some token).isSome st.pipe_index
                    st.prev_index st.fd0 st.fd1 := by
            rw [hlog]
            simp only [tokens_get_length, ← hi] at hfds ⊢
            rw [hi] at hfds
            simp [spawns_append, spawns, expected_from, hfds, hi, tokens_get_length]
          exact ⟨⟨1, by rw [hsp]; simp [expected_from]⟩, fun _ => hsp⟩
      · rw [stage_for_stuck tokens env disp [] i (some token) st hst]
        exact ⟨⟨0, by simp⟩, fun h => absurd h hst⟩
  | cons t rest ih =>
    intro i cur st hdrop hlen hcur hcnt hseen hprev
    by_cases hst : st.status = Status.ok
    · obtain ⟨hget, hdrop1⟩ := get_after_drop hdrop
      have hlen1 : i + 1 + rest.length = tokens.length := by
        simp only [List.length_cons] at hlen
        omega
      have hi : i ≠ tokens.length := by
        simp only [List.length_cons] at hlen
        omega
      cases hop : is_operator t with
      | false =>
        obtain ⟨h1, h2, h3⟩ := not_operator hop
        have hcnt1 : st.pipe_index + rest.count "|" = count_pipes tokens := by
          rw [← hcnt, List.count_cons]
          simp [h3]
        have := ih (i + 1) (some t) st hdrop1 hlen1
          (fun u hu => by cases hu; exact hop) hcnt1 hseen hprev
        simp only [stage_for, hop, expected_from, h1, h2, h3, if_false]
        simpa using this
      | true =>
        have hcur1 : ∀ x, (none : Option String) = some x → is_operator x = false := by
          intro x hx
          cases hx
        rcases is_operator_cases hop with ht | ht | ht
        · -- the token is `<`
          subst ht
          have hcnt1 : st.pipe_index + rest.count "|" = count_pipes tokens := by
            rw [← hcnt, List.count_cons]
            simp
          have := ih (i + 1) none
            { st with fd0 := (redirect env.openOk rest.head? Desc.in_file st.fd0).1,
                      log := st.log ++ (redirect env.openOk rest.head? Desc.in_file st.fd0).2 }
            hdrop1 hlen1 hcur1 hcnt1 hseen hprev
          simp only [stage_for, hop, if_true, loop_body, hget]
          simp [hst, expected_from, spawns_append, spawns_redirect] at this ⊢
          exact this
        · -- the token is `>`
          subst ht
          have hcnt1 : st.pipe_index + rest.count "|" = count_pipes tokens := by
            rw [← hcnt, List.count_cons]
            simp
          have := ih (i + 1) none
            { st with fd1 := (redirect env.openOk rest.head? Desc.out_file st.fd1).1,
                      log := st.log ++ (redirect env.openOk rest.head? Desc.out_file st.fd1).2 }
            hdrop1 hlen1 hcur1 hcnt1 hseen hprev
          simp only [stage_for, hop, if_true, loop_body, hget]
          simp [hst, expected_from, spawns_append, spawns_redirect] at this ⊢
          exact this
        · -- the token is `|`
          subst ht
          have hcnt1 : st.pipe_index + 1 + rest.count "|" = count_pipes tokens := by
            rw [← hcnt, List.count_cons]
            simp
            omega
          have hlt : st.pipe_index < count_pipes tokens := by omega
          have hin : ¬ (count_pipes tokens ≤ st.pipe_index ∧ env.oob_harmless = false) := by
            intro h
            omega
          have hfds := child_fds_at_pipe tokens.length (count_pipes tokens) i st hi hlt hseen
          simp only [stage_for, hop, if_true]
          rw [loop_body_fork tokens env disp i "|" _ st hst (by decide) (by decide)
            (Or.inl rfl)]
          have hp := fork_stage_parent tokens env disp i "|"
            (fun s => stage_for tokens env disp rest (i + 1) none s) st hin
          simp only [tokens_get_length, hfds, if_true] at hp
          generalize fork_stage tokens env disp i "|"
            (fun s => stage_for tokens env disp rest (i + 1) none s) st = r at hp ⊢
          obtain ⟨hlog, hfd0, hfd1, hpi, hps, hok⟩ := hp
          have hsp : spawns r.log = spawns st.log
              ++ [⟨st.prev_index, i,
                    if st.pipe_index = 0 then st.fd0 else Desc.pipe_read (st.pipe_index - 1),
                    Desc.pipe_write st.pipe_index, disp⟩] := by
            rw [hlog]
            simp [spawns_append, spawns]
          by_cases hr : r.status = Status.ok
          · obtain ⟨hpv, hpt⟩ := hok hr
            have := ih (i + 1) none r hdrop1 hlen1 hcur1 (by rw [hpi]; exact hcnt1)
              (by rw [hps, hpi]; simp) (fun _ => hpt)
            rw [hsp, hpi, hpv, hfd0, hfd1] at this
            obtain ⟨⟨m, hm⟩, hall⟩ := this
            refine ⟨⟨m + 1, ?_⟩, fun h => ?_⟩
            · rw [hm]
              simp [expected_from]
            · rw [hall h]
              simp [expected_from]
          · rw [stage_for_stuck tokens env disp rest (i + 1) none r hr]
            refine ⟨⟨1, ?_⟩, fun h => absurd h hr⟩
            rw [hsp]
            simp [expected_from]
    · rw [stage_for_stuck tokens env disp (t :: rest) i cur st hst]
      exact ⟨⟨0, by simp⟩, fun h => absurd h hst⟩

/-- The children forked by the whole loop. -/
theorem stage_loop_spawns (tokens : List String) (env : Env) (disp : SigTable) :
    (∃ m, spawns (stage_loop tokens env disp).log
      = (expected_from env.openOk disp tokens 0 false 0 0 Desc.shell_stdin
          Desc.shell_stdout).take m) ∧
    ((stage_loop tokens env disp).status = Status.ok →
      spawns (stage_loop tokens env disp).log
        = expected_from env.openOk disp tokens 0 false 0 0 Desc.shell_stdin
            Desc.shell_stdout) := by
  have := stage_for_spawns tokens env disp tokens 0 none LoopState.init rfl (by simp)
    (fun t ht => by cases ht) (by simp [LoopState.init, count_pipes_eq_count])
    (by simp [LoopState.init]) (fun h => by simp [LoopState.init] at h)
  simpa [stage_loop, LoopState.init, spawns] using this

theorem perrors_append (a b : List Event) : perrors (a ++ b) = perrors a ++ perrors b := by
  induction a with
  | nil => rfl
  | cons e a ih => cases e <;> simp [perrors, ih]

theorem expected_none_without_pipe (openOk : String → Bool) (disp : SigTable) (op : String)
    (hop : op = "<" ∨ op = ">") :
    ∀ (pre : List String) (i : Nat) (inw : Bool) (k start : Nat) (fd0 fd1 : Desc),
      "|" ∉ pre → expected_from openOk disp (pre ++ [op]) i inw k start fd0 fd1 = [] := by
  intro pre
  induction pre with
  | nil =>
    intro i inw k start fd0 fd1 _
    rcases hop with h | h <;> subst h <;> simp [expected_from]
  | cons t pre ih =>
    intro i inw k start fd0 fd1 hp
    have ht : t ≠ "|" := fun h => hp (by simp [h])
    have hp1 : "|" ∉ pre := fun h => hp (List.mem_cons_of_mem t h)
    simp only [List.cons_append, expected_from, ht, if_false]
    split
    · exact ih _ _ _ _ _ _ hp1
    · split
      · exact ih _ _ _ _ _ _ hp1
      · exact ih _ _ _ _ _ _ hp1

theorem trailing_redirect_perror (tokens : List String) (env : Env)
    (disp : SigTable) (op : String) (hop : op = "<" ∨ op = ">") :
    ∀ (pre : List String) (i : Nat) (cur : Option String) (st : LoopState),
      tokens.drop i = pre ++ [op] → "|" ∉ pre → st.status = Status.ok →
      "error opening file"
        ∈ perrors (stage_for tokens env disp (pre ++ [op]) i cur st).log := by
  have hopr : is_operator op = true := by
    rcases hop with h | h <;> subst h <;> decide
  intro pre
  induction pre with
  | nil =>
    intro i cur st hdrop _ hst
    obtain ⟨hget, _⟩ := get_after_drop hdrop
    simp only [List.nil_append, stage_for, hopr, if_true]
    rcases hop with h | h <;> subst h <;>
      simp [loop_body, hst, hget, redirect, perrors_append, perrors]
  | cons t pre ih =>
    intro i cur st hdrop hp hst
    obtain ⟨_, hdrop1⟩ := get_after_drop hdrop
    have ht : t ≠ "|" := fun h => hp (by simp [h])
    have hp1 : "|" ∉ pre := fun h => hp (List.mem_cons_of_mem t h)
    simp only [List.cons_append, stage_for]
    cases ho : is_operator t with
    | false =>
      simp only [Bool.false_eq_true, if_false]
      exact ih _ _ _ hdrop1 hp1 hst
    | true =>
      simp only [if_true]
      refine ih _ _ _ hdrop1 hp1 ?_
      rcases is_operator_cases ho with h | h | h
      · simp [loop_body, hst, h]
      · simp [loop_body, hst, h]
      · exact absurd h ht

/-- C2, amended. For every token stream without a `|` whose final token is `<` or `>`
(the redirection target is missing at the end of the line), the stage loop prints
`error opening file` and forks no stage. -/
theorem trailing_redirect_reports_error_and_runs_no_stage (pre : List String) (op : String)
    (env : Env) (disp : SigTable) (hop : op = "<" ∨ op = ">")
    (hpre : "|" ∉ pre) :
    spawns (stage_loop (pre ++ [op]) env disp).log = [] ∧
      "error opening file" ∈ perrors (stage_loop (pre ++ [op]) env disp).log := by
  constructor
  · obtain ⟨⟨m, hm⟩, _⟩ := stage_loop_spawns (pre ++ [op]) env disp
    rw [hm, expected_none_without_pipe env.openOk disp op hop pre _ _ _ _ _ _ hpre]
    simp
  · exact trailing_redirect_perror (pre ++ [op]) env disp op hop pre 0 none
      LoopState.init rfl hpre rfl

/-- Witness for the amended C2: the line `ls -l >`. -/
theorem trailing_redirect_reports_error_and_runs_no_stage_witness :
    spawns (stage_loop (["ls", "-l"] ++ [">"]) Env.benign SigTable.default).log = [] ∧
      "error opening file"
        ∈ perrors (stage_loop (["ls", "-l"] ++ [">"]) Env.benign SigTable.default).log :=
  trailing_redirect_reports_error_and_runs_no_stage ["ls", "-l"] ">" Env.benign
    SigTable.default (Or.inr rfl) (by decide)

theorem skip_delims_split (d : Char) (s : List Char) :
    (s.splitOn d).filter (fun t => decide (t ≠ []))
      = ((skip_delims d s).splitOn d).filter (fun t => decide (t ≠ [])) := by
  induction s with
  | nil => rfl
  | cons c cs ih =>
    by_cases h : c = d
    · simp only [skip_delims, h, if_true]
      rw [← ih]
      simp [List.splitOn, List.splitOnP_cons]
    · simp [skip_delims, h]

theorem skip_delims_head (d : Char) (s : List Char) (c : Char) (cs : List Char)
    (h : skip_delims d s = c :: cs) : c ≠ d := by
  induction s with
  | nil => simp [skip_delims] at h
  | cons x xs ih =>
    by_cases hx : x = d
    · simp only [skip_delims, hx, if_true] at h
      exact ih h
    · simp only [skip_delims, hx, if_false, List.cons.injEq] at h
      exact h.1 ▸ hx

theorem skip_delims_length (d : Char) (s : List Char) : (skip_delims d s).length ≤ s.length := by
  induction s with
  | nil => simp [skip_delims]
  | cons x xs ih =>
    by_cases hx : x = d
    · simp only [skip_delims, hx, if_true, List.length_cons]
      omega
    · simp [skip_delims, hx]

theorem take_token_length (d : Char) (s : List Char) : (take_token d s).2.length ≤ s.length := by
  induction s with
  | nil => simp [take_token]
  | cons x xs ih =>
    by_cases hx : x = d
    · simp [take_token, hx]
    · simp only [take_token, hx, if_false, List.length_cons]
      omega

theorem take_token_split (d : Char) (s : List Char) :
    ∃ tl, s.splitOn d = (take_token d s).1 :: tl ∧
      tl.filter (fun t => decide (t ≠ []))
        = (((take_token d s).2).splitOn d).filter (fun t => decide (t ≠ [])) := by
  induction s with
  | nil => exact ⟨[], by simp [List.splitOn, take_token], by simp [List.splitOn, take_token]⟩
  | cons x xs ih =>
    by_cases hx : x = d
    · exact ⟨xs.splitOn d, by simp [List.splitOn, List.splitOnP_cons, take_token, hx],
        by simp [take_token, hx]⟩
    · obtain ⟨tl, h1, h2⟩ := ih
      refine ⟨tl, ?_, by simpa [take_token, hx] using h2⟩
      simp only [List.splitOn] at h1
      simp [List.splitOn, List.splitOnP_cons, take_token, hx, h1]

theorem strtok_loop_eq_split (d : Char) :
    ∀ (fuel : Nat) (s : List Char), s.length < fuel →
      strtok_loop d fuel s = (s.splitOn d).filter (fun t => decide (t ≠ [])) := by
  intro fuel
  induction fuel with
  | zero =>
    intro s h
    omega
  | succ fuel ih =>
    intro s h
    rw [skip_delims_split]
    have hl := skip_delims_length d s
    simp only [strtok_loop, strtok]
    cases hs : skip_delims d s with
    | nil => simp [List.splitOn]
    | cons c cs =>
      have hc : c ≠ d := skip_delims_head d s c cs hs
      obtain ⟨tl, h1, h2⟩ := take_token_split d (c :: cs)
      have hlen := take_token_length d cs
      rw [hs, List.length_cons] at hl
      have hfst : (take_token d (c :: cs)).1 = c :: (take_token d cs).1 := by
        simp [take_token, hc]
      have hsnd : (take_token d (c :: cs)).2 = (take_token d cs).2 := by
        simp [take_token, hc]
      have hlen2 : (take_token d (c :: cs)).2.length < fuel := by
        rw [hsnd]
        omega
      have hstep : (match (match c :: cs with
            | [] => none
            | c :: cs => some (take_token d (c :: cs))) with
          | none => []
          | some (curr_path, rest) => curr_path :: strtok_loop d fuel rest)
          = (take_token d (c :: cs)).1 :: strtok_loop d fuel (take_token d (c :: cs)).2 := rfl
      rw [hstep, h1, List.filter_cons, h2, ih _ hlen2]
      simp [hfst]

/-- C4, amended. For every command name and `PATH` value (with a non-empty argument
vector), the ordered list of paths `execute_process` passes to `execv` is the command
name itself first, whether or not it contains a `/`, and then dir + "/" + name for each
directory of `PATH` (its non-empty segments between colons) in listed order. -/
theorem execute_process_tries_name_then_path (tokens : List String) (all_paths : String)
    (start_index end_index : Nat) (name : String) (args : List String)
    (hb : build_args tokens start_index end_index = some (name, args)) (ha : args ≠ []) :
    (execute_process tokens (some all_paths) start_index end_index).map
        (List.map ExecCall.path) = some (direct_then_path name all_paths) := by
  have hs := strtok_loop_eq_split ':' (all_paths.data.length + 1) all_paths.data
    (Nat.lt_succ_self _)
  simp only [execute_process, hb, ha, decide_False, Bool.false_and, Bool.false_eq_true,
    if_false, Option.map_some', List.map_cons, direct_then_path, path_dirs, hs,
    List.map_map]
  rfl

/-- Witness for the amended C4: `ls -l` with `PATH=:/bin::/usr/bin:`. -/
theorem execute_process_tries_name_then_path_witness :
    (execute_process ["ls", "-l"] (some ":/bin::/usr/bin:") 0 2).map (List.map ExecCall.path)
      = some (direct_then_path "ls" ":/bin::/usr/bin:") :=
  execute_process_tries_name_then_path ["ls", "-l"] ":/bin::/usr/bin:" 0 2 "ls" ["ls", "-l"]
    (by decide) (by decide)

/-! ## Claims settled by running the code on one line -/

/-- C1 fails on the code. On the valid line `nosuch | cat`, with no program found for
`nosuch`, the child forked for stage 0 comes back from `execute_process` and, there
being no `exit` at line 402, runs the rest of the loop itself: `execute_process` is
called three times, with the ranges (0,1), (0,3) and (2,3), where the line has the two
stages (0,1) and (2,3).  On the valid line `yes | head -1`, with `yes` never exiting,
the loop forks stage 0 and waits for it for ever at line 417: one stage is forked. -/
theorem failed_exec_reruns_loop_and_wait_blocks_next_stage :
    valid_tokens ["nosuch", "|", "cat"] = true ∧
      stage_ranges ["nosuch", "|", "cat"] = [(0, 1), (2, 3)] ∧
      (stage_loop ["nosuch", "|", "cat"] Env.first_not_found SigTable.default).calls.map
          StageProc.range = [(0, 1), (0, 3), (2, 3)] ∧
      valid_tokens ["yes", "|", "head", "-1"] = true ∧
      stage_ranges ["yes", "|", "head", "-1"] = [(0, 1), (2, 4)] ∧
      (spawns (stage_loop ["yes", "|", "head", "-1"] Env.first_runs_on
          SigTable.default).log).map StageProc.range = [(0, 1)] ∧
      (stage_loop ["yes", "|", "head", "-1"] Env.first_runs_on SigTable.default).status
        = Status.blocked := by
  decide

/-- C7, second half, fails on the code. From the initial shell, after the read loop has
handled `sleep 5 &` the counter `num_bg_programs` is 1; `set_handler(0)` has set
`SIGCHLD` to `SIG_IGN` and `sigchild_handler` is not installed, so after delivery of
`SIGCHLD` the counter is still 1 and the loop of `cmd_wait` does not exit. -/
theorem background_counter_not_decremented_on_sigchld :
    (main_iteration ShellState.init ["sleep", "5", "&"] Env.benign 100).shell?.map
        (fun sh => (sh.num_bg_programs, sh.disp SIGCHLD,
          (deliver_SIGCHLD sh).num_bg_programs, cmd_wait_exits (deliver_SIGCHLD sh)))
      = some (1, Handler.SIG_IGN, 1, false) := by
  decide

/-- C8 fails on the code from the second line on. The stage of the first line `ls` calls
`execute_process` with `SIGINT` at its default, but after that line the shell has run
`set_handler(0)`, nothing in the child resets it, and the stage of the second line `ls`
calls `execute_process` with `SIGINT` and `SIGCHLD` ignored. -/
theorem second_line_stage_inherits_ignored_signals :
    (main_iteration ShellState.init ["ls"] Env.benign 100).stages.map
        (fun p => (p.disp SIGINT, p.disp SIGCHLD)) = [(Handler.SIG_DFL, Handler.SIG_DFL)] ∧
      (main_iteration ShellState.init ["ls"] Env.benign 100).shell?.map
        (fun sh => (main_iteration sh ["ls"] Env.benign 101).stages.map
          (fun p => (p.disp SIGINT, p.disp SIGCHLD)))
        = some [(Handler.SIG_IGN, Handler.SIG_IGN)] := by
  decide

/-- C3, second half, fails on the code. On the valid line `a x | b &` the first stage
builds the argument vector `a` (line 177 shortens every stage, not only the last), while
on `a x | b` it builds `a x`; the last stage builds `b` on both. -/
theorem trailing_ampersand_shortens_earlier_stage :
    valid_tokens ["a", "x", "|", "b", "&"] = true ∧
      (spawns (stage_loop ["a", "x", "|", "b", "&"] Env.benign SigTable.default).log).map
          (StageProc.args ["a", "x", "|", "b", "&"]) = [some ["a"], some ["b"]] ∧
      (spawns (stage_loop ["a", "x", "|", "b"] Env.benign SigTable.default).log).map
          (StageProc.args ["a", "x", "|", "b"]) = [some ["a", "x"], some ["b"]] := by
  decide

/-- C10 fails on the code. On the valid line `ls` the array `pipefds` has
`num_pipes = 0` rows and the loop calls `pipe(pipefds[0])`; on `a | b` it has one row
and the loop calls `pipe` on rows 0 and 1: the last stage always gets a pipe, at index
`num_pipes`. -/
theorem last_stage_pipe_index_equals_num_pipes :
    valid_tokens ["ls"] = true ∧ count_pipes ["ls"] = 0 ∧
      pipe_calls (stage_loop ["ls"] Env.benign SigTable.default).log = [0] ∧
      valid_tokens ["a", "|", "b"] = true ∧ count_pipes ["a", "|", "b"] = 1 ∧
      pipe_calls (stage_loop ["a", "|", "b"] Env.benign SigTable.default).log = [0, 1] := by
  decide

/-- C2, as stated, fails: on `ls |` the operator `|` is the last token, yet nothing is
printed and one stage is spawned, with argument vector `ls`. -/
theorem trailing_pipe_line_runs_a_stage :
    missing_argument ["ls", "|"] = true ∧
      perrors (stage_loop ["ls", "|"] Env.benign SigTable.default).log = [] ∧
      (spawns (stage_loop ["ls", "|"] Env.benign SigTable.default).log).map
          (StageProc.args ["ls", "|"]) = [some ["ls"]] := by
  decide

/-- C4, as stated, fails: for `ls` and `PATH=/bin:/usr/bin` the first path passed to
`execv` is the bare name `ls`, and for `./prog` (which contains a `/`) the search goes
on to `/bin/./prog` after the name itself. -/
theorem exec_tries_name_then_every_path_directory :
    (execute_process ["ls"] (some "/bin:/usr/bin") 0 1).map (List.map ExecCall.path)
        = some ["ls", "/bin/ls", "/usr/bin/ls"] ∧
      claimed_exec_paths "ls" "/bin:/usr/bin" = ["/bin/ls", "/usr/bin/ls"] ∧
      (execute_process ["ls"] (some "/bin:/usr/bin") 0 1).map (List.map ExecCall.path)
        ≠ some (claimed_exec_paths "ls" "/bin:/usr/bin") ∧
      (execute_process ["./prog"] (some "/bin") 0 1).map (List.map ExecCall.path)
        = some ["./prog", "/bin/./prog"] ∧
      claimed_exec_paths "./prog" "/bin" = ["./prog"] ∧
      (execute_process ["./prog"] (some "/bin") 0 1).map (List.map ExecCall.path)
        ≠ some (claimed_exec_paths "./prog" "/bin") := by
  decide

end Shell
